import Mathlib

/-!
Verification of the nanosheet collaborative grid backend.

This file gives a shallow embedding of the document-model operations of
`backend/yjs_sync.py`, the snapshot store of `backend/gcs_snapshots.py`, the
debounced snapshot scheduler of `backend/server.py`, and the sheet
regeneration of `backend/cards_api.py`, and proves (or refutes) the
specification's claims about them.

Modelling conventions:
- A Yjs document is modelled by `Doc`: the two ordered sequences `rowOrder`
  and `colOrder` as lists of strings, and the maps `cells` and
  `cardsMetadata` as functions from keys to optional values.
- A transaction is a list of primitive `Edit`s; committing a transaction is
  `applyTxn` (left fold of `applyEdit`).  Each Python operation is embedded as
  a function computing the transaction's edit list from the document state it
  reads, mirroring the source's control flow; an operation that raises midway
  through a transaction yields the prefix of edits that were already executed
  (the `with begin_transaction()` block commits whatever was done before the
  exception escaped to the surrounding `except`).
- Machine integers are `Nat` (no index arithmetic in the source can go
  negative on the paths modelled here); Python's fallible list indexing
  `xs[i]` is modelled with `xs[i]?` plus an explicit abort on `none`.
-/

namespace Nanosheet

/-- Value stored in the `cells` Y.Map under one cell key.  `card c` models a
Python dict containing the key `"cardId"` with value `c`; `nonCard` models any
other stored value (a dict without `"cardId"`, which
`insert_card_at_front_of_lane` skips when collecting occupants). -/
inductive CellVal where
  | card (cardId : String)
  | nonCard
deriving DecidableEq

/-- The `cells` mapping: cell key (a string `"{rowId}:{laneId}"`) to value;
`none` models an absent key. -/
abbrev Cells := String → Option CellVal

/-- A card's flat field mapping (field name to value), as stored in a nested
Y.Map under `cardsMetadata`.  Field values are modelled as strings. -/
abbrev Fields := String → Option String

/-- The `cardsMetadata` mapping: card id to its field map. -/
abbrev CardsMeta := String → Option Fields

/-- The Document Model of one room: the four observed Y structures of
`server.py` (`rowOrder`, `colOrder`, `cells`, `cardsMetadata`). -/
structure Doc where
  rowOrder : List String
  colOrder : List String
  cells : Cells
  cardsMetadata : CardsMeta

/-- The empty document a fresh room starts with. -/
def emptyDoc : Doc :=
  { rowOrder := [], colOrder := [], cells := fun _ => none,
    cardsMetadata := fun _ => none }

/-- Point update of a string-keyed map (Y.Map `set`). -/
def setFn {α : Type} (m : String → Option α) (k : String) (v : α) :
    String → Option α :=
  fun x => if x = k then some v else m x

/-- Point removal from a string-keyed map (Y.Map `pop` on a present key; the
source only pops keys it has checked or collected as present). -/
def popFn {α : Type} (m : String → Option α) (k : String) :
    String → Option α :=
  fun x => if x = k then none else m x

/-- Primitive edits a transaction is made of, matching the Y primitives the
source uses: sequence append and delete-range on `rowOrder`/`colOrder`, set
and pop on `cells` and on `cardsMetadata` itself, and set/pop on a nested
card field map (which are edits of the nested map, not of `cardsMetadata`'s
own entries). -/
inductive Edit where
  | rowAppend (id : String)
  | rowDeleteRange (start len : Nat)
  | colAppend (id : String)
  | colDeleteRange (start len : Nat)
  | cellSet (key : String) (v : CellVal)
  | cellPop (key : String)
  | metaSet (cardId : String) (fields : Fields)
  | metaPop (cardId : String)
  | cardFieldSet (cardId field value : String)
  | cardFieldPop (cardId field : String)

/-- Effect of one primitive edit on the document. -/
def applyEdit (d : Doc) : Edit → Doc
  | .rowAppend id => { d with rowOrder := d.rowOrder ++ [id] }
  | .rowDeleteRange s n =>
      { d with rowOrder := d.rowOrder.take s ++ d.rowOrder.drop (s + n) }
  | .colAppend id => { d with colOrder := d.colOrder ++ [id] }
  | .colDeleteRange s n =>
      { d with colOrder := d.colOrder.take s ++ d.colOrder.drop (s + n) }
  | .cellSet k v => { d with cells := setFn d.cells k v }
  | .cellPop k => { d with cells := popFn d.cells k }
  | .metaSet c m => { d with cardsMetadata := setFn d.cardsMetadata c m }
  | .metaPop c => { d with cardsMetadata := popFn d.cardsMetadata c }
  | .cardFieldSet c f v =>
      { d with cardsMetadata := fun x =>
          if x = c then (d.cardsMetadata c).map (fun fm => setFn fm f v)
          else d.cardsMetadata x }
  | .cardFieldPop c f =>
      { d with cardsMetadata := fun x =>
          if x = c then (d.cardsMetadata c).map (fun fm => popFn fm f)
          else d.cardsMetadata x }

/-- Committing a transaction: apply its edits in order. -/
def applyTxn (d : Doc) (es : List Edit) : Doc :=
  es.foldl applyEdit d

/-- Cell key construction, `f"{row_id}:{lane_id}"` throughout the source. -/
def cellKey (rowId laneId : String) : String :=
  rowId ++ ":" ++ laneId

/-- Does an edit touch `rowOrder`'s own entries? -/
def Edit.touchesRowOrder : Edit → Bool
  | .rowAppend _ => true
  | .rowDeleteRange _ _ => true
  | _ => false

/-- Does an edit touch `colOrder`'s own entries? -/
def Edit.touchesColOrder : Edit → Bool
  | .colAppend _ => true
  | .colDeleteRange _ _ => true
  | _ => false

/-- Does an edit touch `cells`' own entries? -/
def Edit.touchesCells : Edit → Bool
  | .cellSet _ _ => true
  | .cellPop _ => true
  | _ => false

/-- Does an edit touch `cardsMetadata`'s own entries?  Edits inside a nested
card map (`cardFieldSet`/`cardFieldPop`) do not: `server.py` observes
`cardsMetadata` with `observe` (shallow), not `observe_deep`, so nested-map
edits fire no event on it. -/
def Edit.touchesMetaOwn : Edit → Bool
  | .metaSet _ _ => true
  | .metaPop _ => true
  | _ => false

/-- Number of change notifications one committed transaction fires.
`NanosheetRoom.start` (server.py) attaches one `on_change` observer to each
of `rowOrder`, `colOrder`, `cells` and `cardsMetadata`; Yjs fires a
structure's observer once per transaction in which that structure's own
entries changed, so a transaction fires one notification per distinct
observed structure it touched. -/
def notificationCount (t : List Edit) : Nat :=
  (if t.any Edit.touchesRowOrder then 1 else 0) +
  (if t.any Edit.touchesColOrder then 1 else 0) +
  (if t.any Edit.touchesCells then 1 else 0) +
  (if t.any Edit.touchesMetaOwn then 1 else 0)

/-- Is an edit one of the two `cells` primitives? -/
def Edit.isCellEdit : Edit → Bool
  | .cellSet _ _ => true
  | .cellPop _ => true
  | _ => false

/-! Lane inserter, `yjs_sync.insert_card_at_front_of_lane`. -/

/-- One iteration of the collection loop of `insert_card_at_front_of_lane`:
at row index `i`, yield `(i, cell)` when this lane's cell at that row is
present as a dict containing `"cardId"`. -/
def collectProbe (rows : List String) (laneId : String) (cells : Cells)
    (i : Nat) : Option (Nat × CellVal) :=
  match rows[i]? with
  | some rid =>
      match cells (cellKey rid laneId) with
      | some (CellVal.card c) => some (i, CellVal.card c)
      | _ => none
  | none => none

/-- The collection loop of `insert_card_at_front_of_lane`: scan row indices
`target .. len(rows)-1` in order and collect the occupied cells of this
lane paired with their row indices. -/
def collectExisting (rows : List String) (laneId : String) (cells : Cells)
    (target : Nat) : List (Nat × CellVal) :=
  (List.range' target (rows.length - target)).filterMap
    (collectProbe rows laneId cells)

/-- The shift loop of `insert_card_at_front_of_lane`, over the collected
occupants in processing order (highest row index first): each step emits
`pop old_key; set new_key` for the move `i -> i+1`.  Computing
`rows[i + 1]` for `i + 1 = len(rows)` raises `IndexError` in Python before
this step's pop/set run; that abort is modelled by returning the edits
emitted so far with `false`. -/
def shiftEdits (rows : List String) (laneId : String) :
    List (Nat × CellVal) → List Edit × Bool
  | [] => ([], true)
  | (i, v) :: rest =>
      match rows[i]? with
      | none => ([], false)
      | some oldRow =>
          match rows[i + 1]? with
          | none => ([], false)
          | some newRow =>
              let r := shiftEdits rows laneId rest
              (Edit.cellPop (cellKey oldRow laneId) ::
                 Edit.cellSet (cellKey newRow laneId) v :: r.1, r.2)

/-- Transaction of `insert_card_at_front_of_lane(sheet_id, lane_id, card_id,
position_offset)`: the edit list it commits and its boolean result.  All the
loop's reads of `cells` happen before its first write, so the edit list is
computed from the initial state, as in the source.  Failure returns the edits
committed before the failure point: `[]` for the guarded out-of-range checks,
and the pre-abort prefix for the `IndexError` path. -/
def insertTxnEdits (d : Doc) (laneId cardId : String) (offset : Nat) :
    List Edit × Bool :=
  let rows := d.rowOrder
  if rows.length = 0 then ([], false)
  else
    let target := 1 + offset
    if rows.length ≤ target then ([], false)
    else
      let existing := collectExisting rows laneId d.cells target
      let r := shiftEdits rows laneId existing.reverse
      if r.2 then
        match rows[target]? with
        | some targetRow =>
            (r.1 ++ [Edit.cellSet (cellKey targetRow laneId)
              (CellVal.card cardId)], true)
        | none => (r.1, false)
      else (r.1, false)

/-- `insert_card_at_front_of_lane`: commit the transaction's edits and report
the boolean result (`True` on success, `False` on out-of-range failure or on
the internal `IndexError`). -/
def insert_card_at_front_of_lane (d : Doc) (laneId cardId : String)
    (offset : Nat) : Doc × Bool :=
  let r := insertTxnEdits d laneId cardId offset
  (applyTxn d r.1, r.2)

/-! Card field update, `yjs_sync.set_card_field`. -/

/-- Transaction of `set_card_field(sheet_id, card_id, field, value)`.  When
`card_id` is absent from `cardsMetadata`, the source stores
`room.ydoc.get_map(f"card_{card_id}")` under it; a name never used before
denotes a fresh empty map, modelled as `fun _ => none` (the Document Model
does not track root maps unreferenced from `cardsMetadata`).  A `None` value
deletes the field only if present; otherwise the field is set. -/
def setCardFieldTxnEdits (d : Doc) (cardId field : String)
    (value : Option String) : List Edit :=
  let pre : List Edit × Fields :=
    match d.cardsMetadata cardId with
    | none => ([Edit.metaSet cardId (fun _ => none)], fun _ => none)
    | some m => ([], m)
  let post : List Edit :=
    match value with
    | none =>
        if (pre.2 field).isSome then [Edit.cardFieldPop cardId field] else []
    | some v => [Edit.cardFieldSet cardId field v]
  pre.1 ++ post

/-- `set_card_field`: commit the transaction and return `True` (the source
returns `True` on every non-raising path). -/
def set_card_field (d : Doc) (cardId field : String)
    (value : Option String) : Doc × Bool :=
  (applyTxn d (setCardFieldTxnEdits d cardId field value), true)

/-! Sheet regeneration, `cards_api.regenerate_sheet` (the Document Model
edits only; Datastore and media writes are out of scope).  The function runs
two separate `begin_transaction` blocks. -/

/-- First regeneration transaction (cards_api.py lines 847-869): delete the
whole `rowOrder` and `colOrder` ranges if nonempty, pop every key of `cells`
and of `cardsMetadata`, then append the `numCols` new lane ids
`"c-0" .. "c-{numCols-1}"`.  `cellKeys`/`cardKeys` stand for the snapshots
`list(cells.keys())`/`list(cards_metadata.keys())` the source iterates. -/
def regenClearTxn (d : Doc) (numCols : Nat)
    (cellKeys cardKeys : List String) : List Edit :=
  (if 0 < d.rowOrder.length
     then [Edit.rowDeleteRange 0 d.rowOrder.length] else []) ++
  (if 0 < d.colOrder.length
     then [Edit.colDeleteRange 0 d.colOrder.length] else []) ++
  cellKeys.map Edit.cellPop ++
  cardKeys.map Edit.metaPop ++
  (List.range numCols).map (fun i => Edit.colAppend ("c-" ++ toString i))

/-- Committed state after the first regeneration transaction: the state any
observer sees between the two `begin_transaction` blocks. -/
def regenIntermediate (d : Doc) (numCols : Nat)
    (cellKeys cardKeys : List String) : Doc :=
  applyTxn d (regenClearTxn d numCols cellKeys cardKeys)

/-- Inner loop of the second regeneration transaction for one column: place
`remaining` cards into column `colId` at row indices `rowIdx, rowIdx+1, ...`,
consuming card ids from index `cardIndex` on, guarded by
`card_index < len(all_cards)` as in the source.  `rowIds` is what
`list(row_order)` evaluates to inside this transaction (the appended new
rows, `rowOrder` having been emptied by the first transaction); an
out-of-range row index aborts (`IndexError`), returning the edits emitted so
far.  Returns (edits, next card index, ok). -/
def colAssignEdits (rowIds cardIds : List String) (colId : String) :
    Nat → Nat → Nat → List Edit × Nat × Bool
  | _, cardIndex, 0 => ([], cardIndex, true)
  | rowIdx, cardIndex, remaining + 1 =>
      if h : cardIndex < cardIds.length then
        match rowIds[rowIdx]? with
        | none => ([], cardIndex, false)
        | some r =>
            let tail := colAssignEdits rowIds cardIds colId (rowIdx + 1)
              (cardIndex + 1) remaining
            (Edit.cellSet (cellKey r colId) (CellVal.card cardIds[cardIndex])
               :: tail.1, tail.2)
      else ([], cardIndex, true)

/-- Column loop of the second regeneration transaction: for `col_idx` in
`range(num_cols)`, place `cards_per_col[col_idx]` cards into lane
`"c-{col_idx}"`, with the running `card_index` carried from column to column
as in the source; indexing `cards_per_col` out of range aborts. -/
def assignEdits (rowIds cardIds : List String) (cardsPerCol : List Nat) :
    Nat → Nat → Nat → List Edit × Bool
  | _, _, 0 => ([], true)
  | colIdx, cardIndex, fuel + 1 =>
      match cardsPerCol[colIdx]? with
      | none => ([], false)
      | some n =>
          let r := colAssignEdits rowIds cardIds ("c-" ++ toString colIdx)
            0 cardIndex n
          if r.2.2 then
            let rest := assignEdits rowIds cardIds cardsPerCol (colIdx + 1)
              r.2.1 fuel
            (r.1 ++ rest.1, rest.2)
          else (r.1, false)

/-- Second regeneration transaction (cards_api.py lines 910-929): append the
`max_rows` fresh row ids, then assign cards column by column. -/
def regenPopulateTxn (rowIds cardIds : List String)
    (cardsPerCol : List Nat) (numCols : Nat) : List Edit × Bool :=
  let r := assignEdits rowIds cardIds cardsPerCol 0 0 numCols
  (rowIds.map Edit.rowAppend ++ r.1, r.2)

/-- Committed state after both regeneration transactions. -/
def regenFinal (d : Doc) (numCols : Nat) (cellKeys cardKeys : List String)
    (rowIds cardIds : List String) (cardsPerCol : List Nat) : Doc :=
  applyTxn (regenIntermediate d numCols cellKeys cardKeys)
    (regenPopulateTxn rowIds cardIds cardsPerCol numCols).1

/-! Debounced snapshot scheduler, `server.debounced_save_snapshot`.  The
single-threaded asyncio execution of the source is modelled as a discrete
event simulation over millisecond timestamps.  Per sheet the source keeps a
dict entry `snapshot_tasks[sheet_id]` (here `entry`, holding a task id) and a
set of scheduled save tasks (here `alive`, in creation order, which is also
deadline order since the delay is fixed).

`debounced_save_snapshot` cancels the task currently in the dict (if any) and
stores a newly created task sleeping for `delay`.  Crucially, the *cancelled*
task's `finally:` block then runs `if sheet_id in snapshot_tasks: del
snapshot_tasks[sheet_id]` — and by that point the dict holds the *new* task,
whose entry is thereby deleted even though the new task keeps running.  A
save task that reaches its deadline uncancelled performs the save and its
`finally:` likewise clears whatever entry the dict currently holds. -/

/-- One pending save task: its id and its absolute deadline (creation time
plus delay). -/
structure DebounceState where
  entry : Option Nat
  alive : List (Nat × Nat)
  nextId : Nat
  saves : List Nat

/-- Run every scheduled save task whose deadline has passed by time `now`
(they form a prefix of `alive`, which is in deadline order): each appends its
deadline to the saves log, and its `finally:` clears the dict entry. -/
def fireDue (now : Nat) : List (Nat × Nat) → Option Nat → List Nat →
    List (Nat × Nat) × Option Nat × List Nat
  | [], entry, saves => ([], entry, saves)
  | (tid, dl) :: rest, entry, saves =>
      if dl ≤ now then fireDue now rest none (saves ++ [dl])
      else ((tid, dl) :: rest, entry, saves)

/-- One mutation at time `t`: first any due save tasks fire, then
`debounced_save_snapshot` runs.  If the dict holds a task it is cancelled
(removed from `alive`) and the new task is stored — after which the cancelled
task's `finally:` deletes the new task's dict entry (`entry` becomes `none`
while the new task stays alive).  If the dict is empty the new task is simply
stored. -/
def mutate (delay t : Nat) (st : DebounceState) : DebounceState :=
  let fd := fireDue t st.alive st.entry st.saves
  match fd.2.1 with
  | none =>
      { entry := some st.nextId, alive := fd.1 ++ [(st.nextId, t + delay)],
        nextId := st.nextId + 1, saves := fd.2.2 }
  | some tid =>
      { entry := none,
        alive := fd.1.filter (fun p => p.1 ≠ tid) ++ [(st.nextId, t + delay)],
        nextId := st.nextId + 1, saves := fd.2.2 }

/-- Save times produced for one room by a sequence of mutations at the given
(strictly increasing) times: run the mutations, then let every remaining
uncancelled save task fire at its deadline. -/
def debounceSaves (delay : Nat) (ts : List Nat) : List Nat :=
  let st := ts.foldl (fun st t => mutate delay t st)
    { entry := none, alive := [], nextId := 0, saves := [] }
  st.saves ++ st.alive.map (fun p => p.2)

/-! Snapshot store, `gcs_snapshots.py`.  The GCS bucket is modelled as a map
from blob path to blob content; `β` is the blob content type. -/

/-- Blob store: path to content. -/
abbrev Store (β : Type) := String → Option β

/-- Snapshot blob path, `f"sheets/{sheet_id}/snapshot.ybin"`. -/
def snapshotPath (sheetId : String) : String :=
  "sheets/" ++ sheetId ++ "/snapshot.ybin"

/-- `delete_all_snapshots`: delete every blob under the `"sheets/"` prefix
(the source lists `bucket.list_blobs(prefix="sheets/")` and deletes each). -/
def delete_all_snapshots {β : Type} (st : Store β) : Store β :=
  fun p => if ("sheets/".data.isPrefixOf p.data : Bool) then none else st p

/-- Modelled from the spec: `y_py.apply_update` applied to a fresh (empty)
document.  The external codec is out of this repository; per the spec a
snapshot blob is "an opaque binary encoding of one Document Model's full
state", so applying a decoded full-state update to a fresh document installs
exactly that state. -/
def applyUpdateToFresh (_fresh : Doc) (decoded : Doc) : Doc :=
  decoded

/-- `load_snapshot(bucket, sheet_id, ydoc)`: read the blob at the sheet's
snapshot path.  Absent blob: return `False` with the document untouched.
Present blob that decodes (`decode b = some state`): apply it and return
`True`.  Present blob that fails to decode/apply: return `False` and run
`delete_all_snapshots`.  Result: ((document after the call, return value),
store after the call). -/
def load_snapshot {β : Type} (decode : β → Option Doc) (st : Store β)
    (sheetId : String) (ydoc : Doc) : (Doc × Bool) × Store β :=
  match st (snapshotPath sheetId) with
  | none => ((ydoc, false), st)
  | some b =>
      match decode b with
      | some state => ((applyUpdateToFresh ydoc state, true), st)
      | none => ((ydoc, false), delete_all_snapshots st)

/-- Modelled from the spec: `y_py.encode_state_as_update`, the external
codec's encoder, modelled as the full document state itself (see
`applyUpdateToFresh`). -/
def encode_state_as_update (d : Doc) : Doc :=
  d

/-- Decoder matching `encode_state_as_update` under the spec's opaque-codec
model: every encoded blob decodes to the state it encodes. -/
def decodeDocBlob (b : Doc) : Option Doc :=
  some b

/-- `save_snapshot(bucket, sheet_id, ydoc)`: encode the current state and
write/overwrite the blob at the sheet's snapshot path. -/
def save_snapshot (st : Store Doc) (sheetId : String) (d : Doc) : Store Doc :=
  setFn st (snapshotPath sheetId) (encode_state_as_update d)

/-! Concrete documents used by the literal-scenario claims and witnesses. -/

/-- The spec's literal lane-insert scenario: rows `[r0, r1, r2, r3]` (r0 the
header), one lane `c-0`, occupied at `r1 -> A` and `r2 -> B`. -/
def docScenario : Doc :=
  { rowOrder := ["r0", "r1", "r2", "r3"],
    colOrder := ["c-0"],
    cells := fun k =>
      if k = "r1:c-0" then some (CellVal.card "A")
      else if k = "r2:c-0" then some (CellVal.card "B")
      else none,
    cardsMetadata := fun _ => none }

/-- A small document with one row, one lane, one placed card and one card's
metadata, used to instantiate the regeneration transactions. -/
def docSmall : Doc :=
  { rowOrder := ["rA"],
    colOrder := ["cA"],
    cells := fun k => if k = "rA:cA" then some (CellVal.card "cardA") else none,
    cardsMetadata := fun c => if c = "cardA" then some (fun _ => none) else none }

/-- A two-row document whose lane `c-0` is occupied at the last row, used for
the last-row-occupied failure claim. -/
def docLastOccupied : Doc :=
  { rowOrder := ["r0", "r1"],
    colOrder := ["c-0"],
    cells := fun k => if k = "r1:c-0" then some (CellVal.card "A") else none,
    cardsMetadata := fun _ => none }

/-- A concrete two-sheet blob store: sheet `A` holds the blob `[0]`, sheet
`B` the blob `[1]`. -/
def storeAB : Store (List Nat) :=
  fun p =>
    if p = snapshotPath "A" then some [0]
    else if p = snapshotPath "B" then some [1]
    else none

/-- A decoder that accepts only the blob `[1]`: sheet `A`'s blob is corrupt,
sheet `B`'s is valid. -/
def decodeOnly1 (b : List Nat) : Option Doc :=
  if b = [1] then some emptyDoc else none

/-! Basic transaction lemmas. -/

theorem applyTxn_nil (d : Doc) : applyTxn d [] = d :=
  rfl

theorem applyTxn_cons (d : Doc) (e : Edit) (es : List Edit) :
    applyTxn d (e :: es) = applyTxn (applyEdit d e) es :=
  rfl

theorem applyTxn_append (d : Doc) (es fs : List Edit) :
    applyTxn d (es ++ fs) = applyTxn (applyTxn d es) fs :=
  List.foldl_append applyEdit d es fs

theorem rowOrder_applyEdit_of_not_touches (d : Doc) (e : Edit)
    (h : e.touchesRowOrder = false) : (applyEdit d e).rowOrder = d.rowOrder := by
  cases e <;> simp_all [applyEdit, Edit.touchesRowOrder]

theorem colOrder_applyEdit_of_not_touches (d : Doc) (e : Edit)
    (h : e.touchesColOrder = false) : (applyEdit d e).colOrder = d.colOrder := by
  cases e <;> simp_all [applyEdit, Edit.touchesColOrder]

theorem rowOrder_applyTxn_of_not_touches (es : List Edit) (d : Doc)
    (h : ∀ e ∈ es, e.touchesRowOrder = false) :
    (applyTxn d es).rowOrder = d.rowOrder := by
  induction es generalizing d with
  | nil => rfl
  | cons e es ih =>
      rw [applyTxn_cons, ih _ (fun x hx => h x (List.mem_cons_of_mem _ hx)),
        rowOrder_applyEdit_of_not_touches d e (h e (List.mem_cons_self _ _))]

theorem colOrder_applyTxn_of_not_touches (es : List Edit) (d : Doc)
    (h : ∀ e ∈ es, e.touchesColOrder = false) :
    (applyTxn d es).colOrder = d.colOrder := by
  induction es generalizing d with
  | nil => rfl
  | cons e es ih =>
      rw [applyTxn_cons, ih _ (fun x hx => h x (List.mem_cons_of_mem _ hx)),
        colOrder_applyEdit_of_not_touches d e (h e (List.mem_cons_self _ _))]

theorem colOrder_applyTxn_colAppends (ids : List String) (d : Doc) :
    (applyTxn d (ids.map Edit.colAppend)).colOrder = d.colOrder ++ ids := by
  induction ids generalizing d with
  | nil => simp [applyTxn]
  | cons i ids ih =>
      rw [List.map_cons, applyTxn_cons, ih]
      simp [applyEdit]

theorem rowOrder_applyTxn_rowAppends (ids : List String) (d : Doc) :
    (applyTxn d (ids.map Edit.rowAppend)).rowOrder = d.rowOrder ++ ids := by
  induction ids generalizing d with
  | nil => simp [applyTxn]
  | cons i ids ih =>
      rw [List.map_cons, applyTxn_cons, ih]
      simp [applyEdit]

theorem isCellEdit_not_touches (e : Edit) (h : e.isCellEdit = true) :
    e.touchesRowOrder = false ∧ e.touchesColOrder = false ∧
      e.touchesMetaOwn = false := by
  cases e <;> simp_all [Edit.isCellEdit, Edit.touchesRowOrder,
    Edit.touchesColOrder, Edit.touchesMetaOwn]

/-- A nonempty transaction consisting solely of `cells` edits fires exactly
one change notification: the `cells` observer's. -/
theorem notificationCount_of_cellEdits (t : List Edit) (hne : t ≠ [])
    (h : ∀ e ∈ t, e.isCellEdit = true) : notificationCount t = 1 := by
  have hcells : t.any Edit.touchesCells = true := by
    rw [List.any_eq_true]
    obtain ⟨e, he⟩ : ∃ e, e ∈ t := by
      cases t with
      | nil => exact absurd rfl hne
      | cons a t => exact ⟨a, List.mem_cons_self _ _⟩
    refine ⟨e, he, ?_⟩
    have := h e he
    cases e <;> simp_all [Edit.isCellEdit, Edit.touchesCells]
  have hrow : t.any Edit.touchesRowOrder = false := by
    rw [List.any_eq_false]
    intro e he
    simp [(isCellEdit_not_touches e (h e he)).1]
  have hcol : t.any Edit.touchesColOrder = false := by
    rw [List.any_eq_false]
    intro e he
    simp [(isCellEdit_not_touches e (h e he)).2.1]
  have hmeta : t.any Edit.touchesMetaOwn = false := by
    rw [List.any_eq_false]
    intro e he
    simp [(isCellEdit_not_touches e (h e he)).2.2]
  rw [notificationCount, hcells, hrow, hcol, hmeta]
  simp

/-! String lemmas about cell keys. -/

theorem noColon_append_inj {x y u v : List Char} (hx : ':' ∉ x)
    (hy : ':' ∉ y) (h : x ++ ':' :: u = y ++ ':' :: v) : x = y ∧ u = v := by
  induction x generalizing y with
  | nil =>
      cases y with
      | nil => simpa using h
      | cons b ys =>
          rw [List.nil_append, List.cons_append, List.cons.injEq] at h
          exact absurd (h.1 ▸ List.mem_cons_self b ys) hy
  | cons a xs ih =>
      cases y with
      | nil =>
          rw [List.nil_append, List.cons_append, List.cons.injEq] at h
          exact absurd (h.1.symm ▸ List.mem_cons_self a xs) hx
      | cons b ys =>
          rw [List.cons_append, List.cons_append, List.cons.injEq] at h
          have := ih (fun hm => hx (List.mem_cons_of_mem a hm))
            (fun hm => hy (h.1 ▸ List.mem_cons_of_mem b hm)) h.2
          exact ⟨by rw [h.1, this.1], this.2⟩

theorem cellKey_data (r l : String) :
    (cellKey r l).data = r.data ++ ':' :: l.data := by
  rw [cellKey, String.data_append, String.data_append, List.append_assoc]
  rfl

theorem cellKey_row_inj {r r2 lane : String}
    (h : cellKey r lane = cellKey r2 lane) : r = r2 := by
  have hd := congrArg String.data h
  rw [cellKey_data, cellKey_data] at hd
  apply String.ext
  have hrev := congrArg List.reverse hd
  simp only [List.reverse_append, List.reverse_cons, List.append_assoc] at hrev
  exact List.reverse_injective
    (List.append_cancel_left (List.append_cancel_left hrev))

theorem cellKey_lane_ne {r r2 l lane : String} (hl : ':' ∉ l.data)
    (hlane : ':' ∉ lane.data) (hne : l ≠ lane) :
    cellKey r l ≠ cellKey r2 lane := by
  intro h
  have hd := congrArg String.data h
  rw [cellKey_data, cellKey_data] at hd
  have hrev := congrArg List.reverse hd
  simp only [List.reverse_append, List.reverse_cons, List.append_assoc,
    List.singleton_append] at hrev
  have := noColon_append_inj (by simpa using hl) (by simpa using hlane) hrev
  exact hne (String.ext (List.reverse_injective
    (by simpa using congrArg List.reverse this.1)))

/-! Collection-loop lemmas. -/

theorem range'_pairwise_lt (s n : Nat) :
    (List.range' s n).Pairwise (· < ·) := by
  induction n generalizing s with
  | zero => simp
  | succ n ih =>
      rw [List.range'_succ]
      refine List.Pairwise.cons ?_ (ih (s + 1))
      intro m hm
      rw [List.mem_range'] at hm
      obtain ⟨i, _, rfl⟩ := hm
      omega

theorem collectProbe_eq_some {rows : List String} {laneId : String}
    {cells : Cells} {i : Nat} {p : Nat × CellVal}
    (h : collectProbe rows laneId cells i = some p) :
    p.1 = i ∧ ∃ r c, rows[i]? = some r ∧
      cells (cellKey r laneId) = some (CellVal.card c) ∧
      p.2 = CellVal.card c := by
  unfold collectProbe at h
  split at h
  case h_2 => exact absurd h (by simp)
  case h_1 r hr =>
    split at h
    case h_1 c hc =>
        cases h
        exact ⟨rfl, r, c, hr, hc, rfl⟩
    case h_2 => exact absurd h (by simp)

theorem mem_collectExisting {rows : List String} {laneId : String}
    {cells : Cells} {target i : Nat} {r c : String}
    (hi : target ≤ i) (hr : rows[i]? = some r)
    (hc : cells (cellKey r laneId) = some (CellVal.card c)) :
    (i, CellVal.card c) ∈ collectExisting rows laneId cells target := by
  have hlen : i < rows.length := (List.getElem?_eq_some_iff.1 hr).1
  unfold collectExisting
  apply List.mem_filterMap.2
  refine ⟨i, ?_, ?_⟩
  · rw [List.mem_range']
    exact ⟨i - target, by omega, by omega⟩
  · rw [collectProbe, hr]
    simp only []
    rw [hc]

theorem collectExisting_pairwise (rows : List String) (laneId : String)
    (cells : Cells) (target : Nat) :
    (collectExisting rows laneId cells target).Pairwise
      (fun a b => a.1 < b.1) := by
  unfold collectExisting
  rw [List.pairwise_filterMap]
  refine (range'_pairwise_lt target (rows.length - target)).imp ?_
  intro i j hij p hp q hq
  rw [Option.mem_def] at hp hq
  rw [(collectProbe_eq_some hp).1, (collectProbe_eq_some hq).1]
  exact hij

/-! Shift-loop lemmas. -/

theorem shiftEdits_ok_bound {rows : List String} {laneId : String} :
    ∀ {l : List (Nat × CellVal)},
      (shiftEdits rows laneId l).2 = true → ∀ p ∈ l, p.1 + 1 < rows.length
  | [], _, p, hp => absurd hp (List.not_mem_nil p)
  | (i, v) :: rest, h, p, hp => by
      rw [shiftEdits] at h
      split at h
      · exact absurd h (by simp)
      case h_2 oldRow hold =>
        split at h
        · exact absurd h (by simp)
        case h_2 newRow hnew =>
          rcases List.mem_cons.1 hp with hpi | hpr
          · subst hpi
            exact (List.getElem?_eq_some_iff.1 hnew).1
          · exact shiftEdits_ok_bound (by simpa using h) p hpr

theorem shiftEdits_isCellEdit {rows : List String} {laneId : String} :
    ∀ {l : List (Nat × CellVal)},
      ∀ e ∈ (shiftEdits rows laneId l).1, e.isCellEdit = true
  | [], e, he => absurd he (List.not_mem_nil e)
  | (i, v) :: rest, e, he => by
      rw [shiftEdits] at he
      split at he
      · exact absurd he (List.not_mem_nil e)
      case h_2 oldRow hold =>
        split at he
        · exact absurd he (List.not_mem_nil e)
        case h_2 newRow hnew =>
          simp only at he
          rcases List.mem_cons.1 he with rfl | he2
          · rfl
          rcases List.mem_cons.1 he2 with rfl | he3
          · rfl
          · exact shiftEdits_isCellEdit e he3

/-- Effect of the committed shift edits on `cells`, for a processing list
with strictly decreasing row indices (as `reversed(existing_cards)` is) whose
successor indices are all in range: every processed occupant ends up one row
later, and keys not named by any processed move are untouched. -/
theorem shiftEdits_apply (rows : List String) (laneId : String)
    (hnd : rows.Nodup) :
    ∀ (l : List (Nat × CellVal)) (d : Doc),
      l.Pairwise (fun a b => b.1 < a.1) →
      (∀ p ∈ l, p.1 + 1 < rows.length) →
      (∀ p ∈ l, ∀ r, rows[p.1 + 1]? = some r →
          (applyTxn d (shiftEdits rows laneId l).1).cells (cellKey r laneId)
            = some p.2) ∧
      (∀ k, (∀ p ∈ l, ∀ r,
          (rows[p.1]? = some r ∨ rows[p.1 + 1]? = some r) →
          k ≠ cellKey r laneId) →
          (applyTxn d (shiftEdits rows laneId l).1).cells k = d.cells k) := by
  intro l
  induction l with
  | nil =>
      intro d _ _
      exact ⟨fun p hp => absurd hp (List.not_mem_nil p),
        fun k _ => rfl⟩
  | cons p0 rest ih =>
      obtain ⟨i, v⟩ := p0
      intro d hpw hbound
      have hi1 : i + 1 < rows.length :=
        hbound (i, v) (List.mem_cons_self _ _)
      have hi : i < rows.length := by omega
      have hold : rows[i]? = some rows[i] := List.getElem?_eq_getElem hi
      have hnew : rows[i + 1]? = some rows[i + 1] :=
        List.getElem?_eq_getElem hi1
      have hhead : ∀ q ∈ rest, q.1 < i :=
        fun q hq => (List.pairwise_cons.1 hpw).1 q hq
      have htail : rest.Pairwise (fun a b => b.1 < a.1) :=
        (List.pairwise_cons.1 hpw).2
      have hse : shiftEdits rows laneId ((i, v) :: rest) =
          (Edit.cellPop (cellKey rows[i] laneId) ::
            Edit.cellSet (cellKey rows[i + 1] laneId) v ::
            (shiftEdits rows laneId rest).1,
           (shiftEdits rows laneId rest).2) := by
        rw [shiftEdits, hold, hnew]
      have happly : applyTxn d (shiftEdits rows laneId ((i, v) :: rest)).1 =
          applyTxn (applyEdit (applyEdit d
            (Edit.cellPop (cellKey rows[i] laneId)))
            (Edit.cellSet (cellKey rows[i + 1] laneId) v))
            (shiftEdits rows laneId rest).1 := by
        rw [hse, applyTxn_cons, applyTxn_cons]
      have hd2 : (applyEdit (applyEdit d
          (Edit.cellPop (cellKey rows[i] laneId)))
          (Edit.cellSet (cellKey rows[i + 1] laneId) v)).cells =
          setFn (popFn d.cells (cellKey rows[i] laneId))
            (cellKey rows[i + 1] laneId) v := rfl
      have IH := ih (applyEdit (applyEdit d
        (Edit.cellPop (cellKey rows[i] laneId)))
        (Edit.cellSet (cellKey rows[i + 1] laneId) v)) htail
        (fun q hq => hbound q (List.mem_cons_of_mem _ hq))
      constructor
      · intro p hp r hr
        rcases List.mem_cons.1 hp with hpi | hpr
        · cases hpi
          have hrnew : r = rows[i + 1] := by
            rw [hnew] at hr
            exact (Option.some.inj hr).symm
          subst hrnew
          rw [happly]
          have hframe : ∀ q ∈ rest, ∀ r2,
              (rows[q.1]? = some r2 ∨ rows[q.1 + 1]? = some r2) →
              cellKey rows[i + 1] laneId ≠ cellKey r2 laneId := by
            intro q hq r2 hcase heq
            have hq_lt : q.1 < i := hhead q hq
            have hrr : rows[i + 1] = r2 := cellKey_row_inj heq
            rcases hcase with hq1 | hq2
            · have : rows[i + 1]? = rows[q.1]? := by
                rw [hnew, hq1, hrr]
              have := List.getElem?_inj hi1 hnd this
              omega
            · have : rows[i + 1]? = rows[q.1 + 1]? := by
                rw [hnew, hq2, hrr]
              have := List.getElem?_inj hi1 hnd this
              omega
          rw [IH.2 (cellKey rows[i + 1] laneId) hframe, hd2, setFn]
          simp
        · rw [happly]
          exact IH.1 p hpr r hr
      · intro k hk
        have hkold : k ≠ cellKey rows[i] laneId :=
          hk (i, v) (List.mem_cons_self _ _) rows[i] (Or.inl hold)
        have hknew : k ≠ cellKey rows[i + 1] laneId :=
          hk (i, v) (List.mem_cons_self _ _) rows[i + 1] (Or.inr hnew)
        rw [happly, IH.2 k
          (fun q hq r2 hcase => hk q (List.mem_cons_of_mem _ hq) r2 hcase),
          hd2, setFn, popFn]
        simp [hkold, hknew]

/-- Anatomy of a successful `insert_card_at_front_of_lane` call: the target
is in range, the shift loop completed, and the new document is the initial
one with the shift edits and the final target write applied. -/
theorem insert_success_spec {d : Doc} {laneId cardId : String} {off : Nat}
    {d' : Doc}
    (h : insert_card_at_front_of_lane d laneId cardId off = (d', true)) :
    1 + off < d.rowOrder.length ∧
    (shiftEdits d.rowOrder laneId
      (collectExisting d.rowOrder laneId d.cells (1 + off)).reverse).2 =
      true ∧
    ∀ tr, d.rowOrder[1 + off]? = some tr →
      d' = applyTxn d ((shiftEdits d.rowOrder laneId
        (collectExisting d.rowOrder laneId d.cells (1 + off)).reverse).1 ++
        [Edit.cellSet (cellKey tr laneId) (CellVal.card cardId)]) := by
  unfold insert_card_at_front_of_lane insertTxnEdits at h
  dsimp only at h
  split at h
  · exact absurd (congrArg Prod.snd h) (by simp)
  case isFalse h0 =>
    split at h
    case isTrue hle => exact absurd (congrArg Prod.snd h) (by simp)
    case isFalse hle =>
      split at h
      case isFalse hok => exact absurd (congrArg Prod.snd h) (by simp)
      case isTrue hok =>
        split at h
        case h_2 hnone => exact absurd (congrArg Prod.snd h) (by simp)
        case h_1 targetRow htr =>
          refine ⟨by omega, hok, ?_⟩
          intro tr htr2
          rw [htr] at htr2
          cases htr2
          exact (congrArg Prod.fst h).symm

/-- C2: for every document state satisfying the data-model invariant that
`RowOrder`'s ids are pairwise distinct, and every successful
`insert_card_at_front_of_lane(laneId, cardId, offset)` call: the new card
occupies row index `1 + offset` of the lane; every cell of the lane occupied
at a row index at or after `1 + offset` before the call holds the same card
exactly one row index later afterwards (hence relative order is preserved);
every key not of the form `"{row}:{laneId}"` for a current row is unchanged,
and in particular every cell whose key names a lane other than `laneId`
(lane ids not containing the `:` separator) is unchanged. -/
theorem C2_insert_shift_and_frame (d : Doc) (laneId cardId : String)
    (off : Nat) (d' : Doc) (hnd : d.rowOrder.Nodup)
    (h : insert_card_at_front_of_lane d laneId cardId off = (d', true)) :
    (∀ tr, d.rowOrder[1 + off]? = some tr →
       d'.cells (cellKey tr laneId) = some (CellVal.card cardId)) ∧
    (∀ i r c, d.rowOrder[i]? = some r → 1 + off ≤ i →
       d.cells (cellKey r laneId) = some (CellVal.card c) →
       ∃ r2, d.rowOrder[i + 1]? = some r2 ∧
         d'.cells (cellKey r2 laneId) = some (CellVal.card c)) ∧
    (∀ k, (∀ r ∈ d.rowOrder, k ≠ cellKey r laneId) →
       d'.cells k = d.cells k) ∧
    (∀ r l, ':' ∉ l.data → ':' ∉ laneId.data → l ≠ laneId →
       d'.cells (cellKey r l) = d.cells (cellKey r l)) := by
  obtain ⟨hlen, hok, hd'⟩ := insert_success_spec h
  have hbound : ∀ p ∈ (collectExisting d.rowOrder laneId d.cells
      (1 + off)).reverse, p.1 + 1 < d.rowOrder.length :=
    shiftEdits_ok_bound hok
  have hpw : (collectExisting d.rowOrder laneId d.cells
      (1 + off)).reverse.Pairwise (fun a b => b.1 < a.1) := by
    rw [List.pairwise_reverse]
    exact collectExisting_pairwise d.rowOrder laneId d.cells (1 + off)
  have hshift := shiftEdits_apply d.rowOrder laneId hnd
    (collectExisting d.rowOrder laneId d.cells (1 + off)).reverse d hpw hbound
  have htr0 : d.rowOrder[1 + off]? = some d.rowOrder[1 + off] :=
    List.getElem?_eq_getElem hlen
  have hcells : d'.cells = setFn
      (applyTxn d (shiftEdits d.rowOrder laneId
        (collectExisting d.rowOrder laneId d.cells (1 + off)).reverse).1).cells
      (cellKey d.rowOrder[1 + off] laneId) (CellVal.card cardId) := by
    rw [hd' d.rowOrder[1 + off] htr0, applyTxn_append]
    rfl
  have frame3 : ∀ k, (∀ r ∈ d.rowOrder, k ≠ cellKey r laneId) →
      d'.cells k = d.cells k := by
    intro k hk
    have hne_t : k ≠ cellKey d.rowOrder[1 + off] laneId :=
      hk d.rowOrder[1 + off] (List.getElem?_mem htr0)
    rw [hcells, setFn]
    simp only [hne_t, if_false]
    apply hshift.2 k
    intro p hp r2 hcase
    rcases hcase with h1 | h1 <;> exact hk r2 (List.getElem?_mem h1)
  refine ⟨?_, ?_, frame3, ?_⟩
  · intro tr htr
    rw [htr0] at htr
    cases htr
    rw [hcells, setFn]
    simp
  · intro i r c hri hit hcc
    have hmem : (i, CellVal.card c) ∈ collectExisting d.rowOrder laneId
        d.cells (1 + off) := mem_collectExisting hit hri hcc
    have hmemr : (i, CellVal.card c) ∈ (collectExisting d.rowOrder laneId
        d.cells (1 + off)).reverse := List.mem_reverse.2 hmem
    have hi1 : i + 1 < d.rowOrder.length := hbound _ hmemr
    refine ⟨d.rowOrder[i + 1], List.getElem?_eq_getElem hi1, ?_⟩
    have h1 := hshift.1 (i, CellVal.card c) hmemr d.rowOrder[i + 1]
      (List.getElem?_eq_getElem hi1)
    rw [hcells, setFn]
    have hne : cellKey d.rowOrder[i + 1] laneId ≠
        cellKey d.rowOrder[1 + off] laneId := by
      intro heq
      have hrr := cellKey_row_inj heq
      have heq2 : d.rowOrder[i + 1]? = d.rowOrder[1 + off]? := by
        rw [List.getElem?_eq_getElem hi1, htr0, hrr]
      have := List.getElem?_inj hi1 hnd heq2
      omega
    simp only [hne, if_false]
    exact h1
  · intro r l hl hlane hne
    apply frame3
    intro r2 _
    exact cellKey_lane_ne hl hlane hne

/-! Regeneration lemmas. -/

theorem regenIntermediate_rowOrder (d : Doc) (numCols : Nat)
    (cellKeys cardKeys : List String) :
    (regenIntermediate d numCols cellKeys cardKeys).rowOrder = [] := by
  unfold regenIntermediate regenClearTxn
  rw [applyTxn_append, applyTxn_append, applyTxn_append, applyTxn_append]
  rw [rowOrder_applyTxn_of_not_touches _ _ (by
    intro e he
    rw [List.mem_map] at he
    obtain ⟨i, _, rfl⟩ := he
    rfl)]
  rw [rowOrder_applyTxn_of_not_touches _ _ (by
    intro e he
    rw [List.mem_map] at he
    obtain ⟨i, _, rfl⟩ := he
    rfl)]
  rw [rowOrder_applyTxn_of_not_touches _ _ (by
    intro e he
    rw [List.mem_map] at he
    obtain ⟨i, _, rfl⟩ := he
    rfl)]
  rw [rowOrder_applyTxn_of_not_touches _ _ (by
    intro e he
    split at he
    · rw [List.mem_singleton] at he
      subst he
      rfl
    · exact absurd he (List.not_mem_nil e))]
  by_cases h0 : 0 < d.rowOrder.length
  · rw [if_pos h0]
    simp [applyTxn, applyEdit]
  · rw [if_neg h0]
    rw [applyTxn_nil]
    exact List.eq_nil_of_length_eq_zero (by omega)

theorem regenIntermediate_colOrder (d : Doc) (numCols : Nat)
    (cellKeys cardKeys : List String) :
    (regenIntermediate d numCols cellKeys cardKeys).colOrder =
      (List.range numCols).map (fun i => "c-" ++ toString i) := by
  unfold regenIntermediate regenClearTxn
  rw [applyTxn_append, applyTxn_append, applyTxn_append, applyTxn_append]
  rw [show (List.range numCols).map
      (fun i => Edit.colAppend ("c-" ++ toString i)) =
      ((List.range numCols).map (fun i => "c-" ++ toString i)).map
        Edit.colAppend from by rw [List.map_map]; rfl]
  rw [colOrder_applyTxn_colAppends]
  rw [colOrder_applyTxn_of_not_touches _ _ (by
    intro e he
    rw [List.mem_map] at he
    obtain ⟨i, _, rfl⟩ := he
    rfl)]
  rw [colOrder_applyTxn_of_not_touches _ _ (by
    intro e he
    rw [List.mem_map] at he
    obtain ⟨i, _, rfl⟩ := he
    rfl)]
  have hA : (applyTxn d (if 0 < d.rowOrder.length
      then [Edit.rowDeleteRange 0 d.rowOrder.length] else [])).colOrder =
      d.colOrder := by
    apply colOrder_applyTxn_of_not_touches
    intro e he
    split at he
    · rw [List.mem_singleton] at he
      subst he
      rfl
    · exact absurd he (List.not_mem_nil e)
  by_cases h0 : 0 < d.colOrder.length
  · rw [if_pos h0, applyTxn_cons, applyTxn_nil]
    simp [applyEdit, hA, List.drop_length]
  · rw [if_neg h0, applyTxn_nil, hA,
      List.eq_nil_of_length_eq_zero (by omega : d.colOrder.length = 0)]
    simp

theorem colAssignEdits_isCellEdit (rowIds cardIds : List String)
    (colId : String) :
    ∀ (remaining rowIdx cardIndex : Nat),
      ∀ e ∈ (colAssignEdits rowIds cardIds colId rowIdx cardIndex
        remaining).1, e.isCellEdit = true := by
  intro remaining
  induction remaining with
  | zero =>
      intro rowIdx cardIndex e he
      exact absurd he (List.not_mem_nil e)
  | succ m ih =>
      intro rowIdx cardIndex e he
      rw [colAssignEdits] at he
      split at he
      case isTrue hlt =>
        split at he
        case h_1 => exact absurd he (List.not_mem_nil e)
        case h_2 r hr =>
          dsimp only at he
          rcases List.mem_cons.1 he with rfl | he2
          · rfl
          · exact ih (rowIdx + 1) (cardIndex + 1) e he2
      case isFalse => exact absurd he (List.not_mem_nil e)

theorem assignEdits_isCellEdit (rowIds cardIds : List String)
    (cpc : List Nat) :
    ∀ (fuel colIdx cardIndex : Nat),
      ∀ e ∈ (assignEdits rowIds cardIds cpc colIdx cardIndex fuel).1,
        e.isCellEdit = true := by
  intro fuel
  induction fuel with
  | zero =>
      intro colIdx cardIndex e he
      exact absurd he (List.not_mem_nil e)
  | succ m ih =>
      intro colIdx cardIndex e he
      rw [assignEdits] at he
      split at he
      case h_1 => exact absurd he (List.not_mem_nil e)
      case h_2 n hn =>
        dsimp only at he
        split at he
        · rcases List.mem_append.1 he with h1 | h1
          · exact colAssignEdits_isCellEdit rowIds cardIds _ n 0
              cardIndex e h1
          · exact ih (colIdx + 1) _ e h1
        · exact colAssignEdits_isCellEdit rowIds cardIds _ n 0
            cardIndex e he

theorem regenFinal_rowOrder (d : Doc) (numCols : Nat)
    (cellKeys cardKeys rowIds cardIds : List String)
    (cardsPerCol : List Nat) :
    (regenFinal d numCols cellKeys cardKeys rowIds cardIds
      cardsPerCol).rowOrder = rowIds := by
  unfold regenFinal regenPopulateTxn
  dsimp only
  rw [applyTxn_append]
  rw [rowOrder_applyTxn_of_not_touches _ _ (fun e he =>
    (isCellEdit_not_touches e (assignEdits_isCellEdit rowIds cardIds
      cardsPerCol numCols 0 0 e he)).1)]
  rw [rowOrder_applyTxn_rowAppends, regenIntermediate_rowOrder]
  rfl

/-! Claims. -/

/-- C1: on the document with rows `[r0, r1, r2, r3]` whose lane `c-0` is
occupied only at `r1 -> A` and `r2 -> B`, calling
`insert_card_at_front_of_lane` with lane `c-0`, new card `C` and offset `0`
returns success, and afterwards lane `c-0`'s cells are exactly `r1 -> C`,
`r2 -> A`, `r3 -> B` (with `r0` still empty). -/
theorem C1_lane_insert_literal_scenario :
    (insert_card_at_front_of_lane docScenario "c-0" "C" 0).2 = true ∧
    (insert_card_at_front_of_lane docScenario "c-0" "C" 0).1.cells
      (cellKey "r0" "c-0") = none ∧
    (insert_card_at_front_of_lane docScenario "c-0" "C" 0).1.cells
      (cellKey "r1" "c-0") = some (CellVal.card "C") ∧
    (insert_card_at_front_of_lane docScenario "c-0" "C" 0).1.cells
      (cellKey "r2" "c-0") = some (CellVal.card "A") ∧
    (insert_card_at_front_of_lane docScenario "c-0" "C" 0).1.cells
      (cellKey "r3" "c-0") = some (CellVal.card "B") :=
  ⟨rfl, rfl, rfl, rfl, rfl⟩

/-- C3: whenever the target position `1 + offset` is at or beyond the number
of rows (including the zero-row case), `insert_card_at_front_of_lane`
returns failure and the entire document — `rowOrder`, `colOrder`, `cells`
and `cardsMetadata` — is identical to the document before the call. -/
theorem C3_out_of_range_failure_unchanged (d : Doc)
    (laneId cardId : String) (off : Nat)
    (h : d.rowOrder.length ≤ 1 + off) :
    insert_card_at_front_of_lane d laneId cardId off = (d, false) := by
  have hins : insertTxnEdits d laneId cardId off = ([], false) := by
    unfold insertTxnEdits
    dsimp only
    by_cases h0 : d.rowOrder.length = 0
    · rw [if_pos h0]
    · rw [if_neg h0, if_pos h]
  unfold insert_card_at_front_of_lane
  rw [hins]
  rfl

/-- C4, counterexample: the clear transaction of `regenerate_sheet` on a
document with at least one row, one lane, one cell and one card metadata
entry is a single (nonempty, mutating) transaction that edits all four
observed structures, so it fires four change notifications, not exactly
one. -/
theorem C4_counterexample_clear_txn_fires_four :
    notificationCount (regenClearTxn docSmall 2 ["rA:cA"] ["cardA"]) = 4 ∧
    (regenClearTxn docSmall 2 ["rA:cA"] ["cardA"]).length = 6 :=
  ⟨rfl, rfl⟩

/-- C4, amended: each committed transaction fires one change notification
per observed top-level structure whose own entries it edited, not one per
transaction: a successful lane insert (a cells-only transaction) fires
exactly one; any transaction fires at most four; and a transaction editing
only a nested card field map fires none. -/
theorem C4_amended_per_structure_notifications :
    (∀ (d : Doc) (laneId cardId : String) (off : Nat) (es : List Edit),
       insertTxnEdits d laneId cardId off = (es, true) →
       notificationCount es = 1) ∧
    (∀ t : List Edit, notificationCount t ≤ 4) ∧
    (∀ c f v, notificationCount [Edit.cardFieldSet c f v] = 0) := by
  refine ⟨?_, ?_, ?_⟩
  · intro d laneId cardId off es h
    unfold insertTxnEdits at h
    dsimp only at h
    split at h
    · exact absurd (congrArg Prod.snd h) (by simp)
    split at h
    · exact absurd (congrArg Prod.snd h) (by simp)
    split at h
    case isFalse => exact absurd (congrArg Prod.snd h) (by simp)
    case isTrue hok =>
      split at h
      case h_2 => exact absurd (congrArg Prod.snd h) (by simp)
      case h_1 tr htr =>
        have hes := (congrArg Prod.fst h).symm
        dsimp only at hes
        subst hes
        apply notificationCount_of_cellEdits
        · simp
        · intro e he
          rcases List.mem_append.1 he with h1 | h1
          · exact shiftEdits_isCellEdit e h1
          · rw [List.mem_singleton] at h1
            subst h1
            rfl
  · intro t
    unfold notificationCount
    split_ifs <;> omega
  · intro c f v
    rfl

/-- C5: the debouncer does not coalesce a burst into one save.  On the
spec's own scenario — five mutations of one room 100 ms apart with an
800 ms delay — the scheduler performs three saves (at 900, 1100 and
1200 ms), because a cancelled save task's cleanup deletes its successor's
`snapshot_tasks` entry, so later mutations in the burst find no task to
cancel. -/
theorem C5_burst_produces_three_saves :
    debounceSaves 800 [0, 100, 200, 300, 400] = [900, 1100, 1200] ∧
    (debounceSaves 800 [0, 100, 200, 300, 400]).length ≠ 1 :=
  ⟨rfl, by decide⟩

/-- C6: if `load_snapshot` finds a present blob that fails to decode/apply,
it returns absent (`False`) with the target document untouched, deletes
every blob under the `sheets/` prefix — hence every sheet's snapshot —
and a subsequent load of any other sheet returns absent. -/
theorem C6_corrupt_load_purges_all_sheets {β : Type}
    (decode : β → Option Doc) (st : Store β) (shA shB : String) (bA : β)
    (ydocA ydocB : Doc) (hA : st (snapshotPath shA) = some bA)
    (hbad : decode bA = none) :
    load_snapshot decode st shA ydocA =
      ((ydocA, false), delete_all_snapshots st) ∧
    (∀ sheet, delete_all_snapshots st (snapshotPath sheet) = none) ∧
    (load_snapshot decode (delete_all_snapshots st) shB ydocB).1.2 =
      false := by
  have hpurge : ∀ sheet, delete_all_snapshots st (snapshotPath sheet) =
      none := by
    intro sheet
    unfold delete_all_snapshots
    have hpre : ("sheets/".data.isPrefixOf (snapshotPath sheet).data) =
        true := by
      rw [ List.isPrefixOf_iff_prefix]
      unfold snapshotPath
      rw [String.data_append, String.data_append, List.append_assoc]
      exact List.prefix_append _ _
    rw [hpre]
    simp
  refine ⟨?_, hpurge, ?_⟩
  · unfold load_snapshot
    rw [hA]
    dsimp only
    rw [hbad]
  · unfold load_snapshot
    rw [hpurge shB]

/-- C7, counterexample: regeneration is two transactions, not one.  On a
document with one row, one lane, one cell and one card, the committed state
after the first transaction (clear plus lane creation, with `numCols = 2`)
has lanes `c-0, c-1` present but no rows — exactly the intermediate state
the claim says is never exposed; it is observable at the transaction
boundary, where the change observers fire and the update is broadcast. -/
theorem C7_counterexample_lanes_without_rows :
    (regenIntermediate docSmall 2 ["rA:cA"] ["cardA"]).rowOrder = [] ∧
    (regenIntermediate docSmall 2 ["rA:cA"] ["cardA"]).colOrder =
      ["c-0", "c-1"] :=
  ⟨rfl, rfl⟩

/-- C7, amended: each of the two regeneration transactions is individually
atomic, but between them a committed state with all `numCols ≥ 1` new lanes
present and no rows is observable; the second transaction then installs the
new rows. -/
theorem C7_amended_two_transaction_regen (d : Doc) (numCols : Nat)
    (cellKeys cardKeys rowIds cardIds : List String) (cpc : List Nat)
    (h : 1 ≤ numCols) :
    (regenIntermediate d numCols cellKeys cardKeys).rowOrder = [] ∧
    (regenIntermediate d numCols cellKeys cardKeys).colOrder =
      (List.range numCols).map (fun i => "c-" ++ toString i) ∧
    (regenIntermediate d numCols cellKeys cardKeys).colOrder ≠ [] ∧
    (regenFinal d numCols cellKeys cardKeys rowIds cardIds cpc).rowOrder =
      rowIds := by
  refine ⟨regenIntermediate_rowOrder d numCols cellKeys cardKeys,
    regenIntermediate_colOrder d numCols cellKeys cardKeys, ?_,
    regenFinal_rowOrder d numCols cellKeys cardKeys rowIds cardIds cpc⟩
  rw [regenIntermediate_colOrder]
  intro hx
  have hlen := congrArg List.length hx
  simp at hlen
  omega

/-- C8: saving a document state and then loading it into a fresh Document
Model reproduces an equivalent `rowOrder`, `colOrder`, `cells` and
`cardsMetadata` (element order preserved for the two sequences), under the
spec's model of the external codec as a faithful opaque encoding of the
full state; the store plumbing writes and reads the same
`sheets/{id}/snapshot.ybin` path. -/
theorem C8_snapshot_round_trip (st : Store Doc) (sheetId : String)
    (d : Doc) :
    (load_snapshot decodeDocBlob (save_snapshot st sheetId d) sheetId
      emptyDoc).1.2 = true ∧
    (load_snapshot decodeDocBlob (save_snapshot st sheetId d) sheetId
      emptyDoc).1.1.rowOrder = d.rowOrder ∧
    (load_snapshot decodeDocBlob (save_snapshot st sheetId d) sheetId
      emptyDoc).1.1.colOrder = d.colOrder ∧
    (load_snapshot decodeDocBlob (save_snapshot st sheetId d) sheetId
      emptyDoc).1.1.cells = d.cells ∧
    (load_snapshot decodeDocBlob (save_snapshot st sheetId d) sheetId
      emptyDoc).1.1.cardsMetadata = d.cardsMetadata := by
  have hload : load_snapshot decodeDocBlob (save_snapshot st sheetId d)
      sheetId emptyDoc = ((d, true), save_snapshot st sheetId d) := by
    unfold load_snapshot save_snapshot setFn encode_state_as_update
      decodeDocBlob applyUpdateToFresh
    simp
  rw [hload]
  exact ⟨rfl, rfl, rfl, rfl, rfl⟩

/-- C9: when the target position is in range but the lane's cell at the
last row index is occupied, `insert_card_at_front_of_lane` fails rather
than succeeding: shifting the highest-index occupant computes row index
`len(rows)`, which raises internally — and since that occupant is processed
first no edit has been committed, so the call returns failure with the
document unchanged. -/
theorem C9_last_row_occupied_fails_unchanged (d : Doc)
    (laneId cardId c : String) (off : Nat) (r : String)
    (hlen : 1 + off < d.rowOrder.length)
    (hr : d.rowOrder.getLast? = some r)
    (hc : d.cells (cellKey r laneId) = some (CellVal.card c)) :
    insert_card_at_front_of_lane d laneId cardId off = (d, false) := by
  have hrn : d.rowOrder[d.rowOrder.length - 1]? = some r := by
    rw [← List.getLast?_eq_getElem?]
    exact hr
  have hprobe : collectProbe d.rowOrder laneId d.cells
      (d.rowOrder.length - 1) =
      some (d.rowOrder.length - 1, CellVal.card c) := by
    rw [collectProbe, hrn]
    simp only []
    rw [hc]
  have hcollect : collectExisting d.rowOrder laneId d.cells (1 + off) =
      (List.range' (1 + off) (d.rowOrder.length - 1 - (1 + off))).filterMap
        (collectProbe d.rowOrder laneId d.cells) ++
      [(d.rowOrder.length - 1, CellVal.card c)] := by
    rw [collectExisting]
    have h1 : d.rowOrder.length - (1 + off) =
        (d.rowOrder.length - 1 - (1 + off)) + 1 := by omega
    rw [h1, List.range'_concat]
    have h2 : 1 + off + 1 * (d.rowOrder.length - 1 - (1 + off)) =
        d.rowOrder.length - 1 := by omega
    rw [h2, List.filterMap_append]
    simp [hprobe]
  have hnone : d.rowOrder[(d.rowOrder.length - 1) + 1]? = none :=
    List.getElem?_eq_none (by omega)
  have hshift : shiftEdits d.rowOrder laneId
      (collectExisting d.rowOrder laneId d.cells (1 + off)).reverse =
      ([], false) := by
    rw [hcollect, List.reverse_append]
    simp only [List.reverse_cons, List.reverse_nil, List.nil_append,
      List.singleton_append]
    rw [shiftEdits, hrn]
    simp only []
    rw [hnone]
  have hins : insertTxnEdits d laneId cardId off = ([], false) := by
    unfold insertTxnEdits
    dsimp only
    rw [if_neg (by omega), if_neg (by omega), hshift]
    simp
  unfold insert_card_at_front_of_lane
  rw [hins]
  rfl

/-- C10: calling `set_card_field` with value `None` for a card with no
`cardsMetadata` entry returns success and creates a fresh empty metadata
entry for that card (the field deletion itself is a no-op on the fresh
empty map), so `cardsMetadata` does not stay unchanged. -/
theorem C10_set_field_none_creates_entry (d : Doc) (cardId field : String)
    (h : d.cardsMetadata cardId = none) :
    (set_card_field d cardId field none).2 = true ∧
    (set_card_field d cardId field none).1.cardsMetadata cardId =
      some (fun _ => none) ∧
    (set_card_field d cardId field none).1.cardsMetadata cardId ≠
      d.cardsMetadata cardId := by
  unfold set_card_field setCardFieldTxnEdits
  rw [h]
  dsimp only
  refine ⟨rfl, ?_, ?_⟩
  · simp [applyTxn, applyEdit, setFn]
  · simp [applyTxn, applyEdit, setFn, h]

/-! Witnesses. -/

theorem C2_insert_shift_and_frame_witness :
    docScenario.rowOrder.Nodup ∧
    (insert_card_at_front_of_lane docScenario "c-0" "C" 0).1.cells
      (cellKey "r2" "c-0") = some (CellVal.card "A") := by
  constructor
  · decide
  · have h := C2_insert_shift_and_frame docScenario "c-0" "C" 0
      (insert_card_at_front_of_lane docScenario "c-0" "C" 0).1
      (by decide) rfl
    obtain ⟨r2, hr2, hc⟩ := h.2.1 1 "r1" "A" rfl (by omega) rfl
    have hr2eq : r2 = "r2" := by
      rw [show docScenario.rowOrder[1 + 1]? = some "r2" from rfl] at hr2
      exact (Option.some.inj hr2).symm
    rw [← hr2eq]
    exact hc

theorem C3_out_of_range_failure_unchanged_witness :
    docScenario.rowOrder.length ≤ 1 + 3 ∧
    insert_card_at_front_of_lane docScenario "c-0" "X" 3 =
      (docScenario, false) :=
  ⟨by decide, C3_out_of_range_failure_unchanged docScenario "c-0" "X" 3
    (by decide)⟩

theorem C4_amended_per_structure_notifications_witness :
    insertTxnEdits docScenario "c-0" "C" 0 =
      ((insertTxnEdits docScenario "c-0" "C" 0).1, true) ∧
    notificationCount (insertTxnEdits docScenario "c-0" "C" 0).1 = 1 :=
  ⟨rfl, C4_amended_per_structure_notifications.1 docScenario "c-0" "C" 0
    (insertTxnEdits docScenario "c-0" "C" 0).1 rfl⟩

theorem C6_corrupt_load_purges_all_sheets_witness :
    storeAB (snapshotPath "A") = some [0] ∧
    decodeOnly1 [0] = none ∧
    (∀ sheet, delete_all_snapshots storeAB (snapshotPath sheet) = none) ∧
    (load_snapshot decodeOnly1 (delete_all_snapshots storeAB) "B"
      emptyDoc).1.2 = false :=
  ⟨rfl, rfl,
    (C6_corrupt_load_purges_all_sheets decodeOnly1 storeAB "A" "B" [0]
      emptyDoc emptyDoc rfl rfl).2.1,
    (C6_corrupt_load_purges_all_sheets decodeOnly1 storeAB "A" "B" [0]
      emptyDoc emptyDoc rfl rfl).2.2⟩

theorem C7_amended_two_transaction_regen_witness :
    1 ≤ 2 ∧
    (regenIntermediate docSmall 2 ["rA:cA"] ["cardA"]).rowOrder = [] ∧
    (regenIntermediate docSmall 2 ["rA:cA"] ["cardA"]).colOrder ≠ [] :=
  ⟨by omega,
    (C7_amended_two_transaction_regen docSmall 2 ["rA:cA"] ["cardA"]
      ["r0"] ["k"] [1] (by omega)).1,
    (C7_amended_two_transaction_regen docSmall 2 ["rA:cA"] ["cardA"]
      ["r0"] ["k"] [1] (by omega)).2.2.1⟩

theorem C9_last_row_occupied_fails_unchanged_witness :
    1 + 0 < docLastOccupied.rowOrder.length ∧
    docLastOccupied.rowOrder.getLast? = some "r1" ∧
    insert_card_at_front_of_lane docLastOccupied "c-0" "C" 0 =
      (docLastOccupied, false) :=
  ⟨by decide, rfl,
    C9_last_row_occupied_fails_unchanged docLastOccupied "c-0" "C" "A" 0
      "r1" (by decide) rfl rfl⟩

theorem C10_set_field_none_creates_entry_witness :
    docScenario.cardsMetadata "card-x" = none ∧
    (set_card_field docScenario "card-x" "title" none).2 = true ∧
    (set_card_field docScenario "card-x" "title" none).1.cardsMetadata
      "card-x" = some (fun _ => none) :=
  ⟨rfl,
    (C10_set_field_none_creates_entry docScenario "card-x" "title" rfl).1,
    (C10_set_field_none_creates_entry docScenario "card-x" "title"
      rfl).2.1⟩

end Nanosheet
